import Mathlib

/-!
Shallow embedding of `src/source/nvidia/cuda/nvidia-cuda.cpp` (StreamFX):
dynamic loading of the NVIDIA CUDA driver library, symbol resolution with
required/optional and versioned-suffix policies, the singleton accessor
`cuda::get()`, and the `version()` query.
-/

namespace streamfx.nvidia.cuda

/-- The four symbol-resolution policies implemented by the macros
`P_CUDA_LOAD_SYMBOL`, `P_CUDA_LOAD_SYMBOL_OPT`, `P_CUDA_LOAD_SYMBOL_V2`,
`P_CUDA_LOAD_SYMBOL_OPT_V2` (nvidia-cuda.cpp lines 47-84). -/
inductive Policy
| required
| optionalSym
| requiredV2
| optionalV2
deriving DecidableEq, Repr

/-- One entry of the symbol table: a logical name and the policy used to bind it. -/
structure SymEntry where
  name : String
  policy : Policy
deriving DecidableEq, Repr

/-- Whether failure to resolve aborts construction (`P_CUDA_LOAD_SYMBOL` /
`P_CUDA_LOAD_SYMBOL_V2` throw; the `_OPT` variants only warn). -/
def Policy.isRequired : Policy → Bool
  | .required => true
  | .requiredV2 => true
  | _ => false

/-- The actual string handed to `_library->load_symbol`: the `_V2` macros append
the literal suffix `"_v2"` to the logical name (lines 73-84); the exact-name
macros pass the logical name unchanged (lines 47-58). -/
def SymEntry.loadName (e : SymEntry) : String :=
  match e.policy with
  | .requiredV2 => e.name ++ "_v2"
  | .optionalV2 => e.name ++ "_v2"
  | _ => e.name

/-- Platform-selected library file name, `ST_CUDA_NAME` (lines 41-45). -/
def cudaName (win32 : Bool) : String :=
  if win32 then "nvcuda.dll" else "libcuda.so.1"

/-- The `std::runtime_error` message thrown by the required-symbol macros:
note `#NAME` is the logical (unsuffixed) name even in the `_V2` macro. -/
def errMsg (lib : String) (name : String) : String :=
  "Failed to load '" ++ name ++ "' from '" ++ lib ++ "'."

/-- The `D_LOG_WARNING` message of the optional-symbol macros: again built
from the logical (unsuffixed) name. -/
def warnMsg (name : String) : String :=
  "Loading of optional symbol '" ++ name ++ "' failed."

/-- Observable events of a construction run: calls into the library loader,
log output, and calls into the driver. -/
inductive Event
| resolve (sym : String)
| logWarning (msg : String)
| logInfo (msg : String)
| callGetVersion
| callInit (arg : Int)
deriving DecidableEq, Repr

/-- The library loader collaborator: `load_symbol` returns a function pointer
or null; we model pointers as `Nat` and null as `none`. -/
def Loader := String → Option Nat

/-- One macro invocation: look up `e.loadName`, and either bind the pointer
under the logical name, throw (required), or warn and bind null (optional). -/
def resolveSym (lib : String) (L : Loader) (e : SymEntry) :
    Except String (String × Option Nat) × List Event :=
  match L e.loadName with
  | some p => (.ok (e.name, some p), [.resolve e.loadName])
  | none =>
    if e.policy.isRequired then
      (.error (errMsg lib e.name), [.resolve e.loadName])
    else
      (.ok (e.name, none), [.resolve e.loadName, .logWarning (warnMsg e.name)])

/-- Process a list of symbol-table entries in order; a thrown error aborts
the rest (C++ exception propagation out of the constructor). -/
def resolveTable (lib : String) (L : Loader) :
    List SymEntry → Except String (List (String × Option Nat)) × List Event
  | [] => (.ok [], [])
  | e :: t =>
    match resolveSym lib L e with
    | (.error m, ev) => (.error m, ev)
    | (.ok b, ev) =>
      match resolveTable lib L t with
      | (.error m, ev2) => (.error m, ev ++ ev2)
      | (.ok bs, ev2) => (.ok (b :: bs), ev ++ ev2)

/-- Step 1 of the constructor (lines 99-105): the critical initialization
functions, both required with exact names. -/
def phase1Table : List SymEntry :=
  [⟨"cuInit", .required⟩, ⟨"cuDriverGetVersion", .required⟩]

/-- Step 3 of the constructor (lines 118-246): the remaining symbol table, in
source order; the Direct3D entries are only attempted when `WIN32`. -/
def mainTable (win32 : Bool) : List SymEntry :=
  [⟨"cuDeviceGetName", .required⟩,
   ⟨"cuDeviceGetLuid", .required⟩,
   ⟨"cuDeviceGetUuid", .required⟩,
   ⟨"cuDevicePrimaryCtxRetain", .required⟩,
   ⟨"cuDevicePrimaryCtxRelease", .requiredV2⟩,
   ⟨"cuDevicePrimaryCtxSetFlags", .optionalV2⟩,
   ⟨"cuCtxCreate", .requiredV2⟩,
   ⟨"cuCtxDestroy", .requiredV2⟩,
   ⟨"cuCtxPushCurrent", .requiredV2⟩,
   ⟨"cuCtxPopCurrent", .requiredV2⟩,
   ⟨"cuCtxGetCurrent", .optionalSym⟩,
   ⟨"cuCtxSetCurrent", .optionalSym⟩,
   ⟨"cuCtxGetStreamPriorityRange", .required⟩,
   ⟨"cuCtxSynchronize", .required⟩,
   ⟨"cuMemAlloc", .requiredV2⟩,
   ⟨"cuMemAllocPitch", .requiredV2⟩,
   ⟨"cuMemFree", .requiredV2⟩,
   ⟨"cuMemcpy", .required⟩,
   ⟨"cuMemcpy2D", .requiredV2⟩,
   ⟨"cuMemcpy2DAsync", .requiredV2⟩,
   ⟨"cuArrayGetDescriptor", .optionalV2⟩,
   ⟨"cuMemcpyAtoA", .optionalV2⟩,
   ⟨"cuMemcpyAtoD", .optionalV2⟩,
   ⟨"cuMemcpyAtoH", .optionalV2⟩,
   ⟨"cuMemcpyAtoHAsync", .optionalV2⟩,
   ⟨"cuMemcpyDtoA", .optionalV2⟩,
   ⟨"cuMemcpyDtoD", .optionalV2⟩,
   ⟨"cuMemcpyDtoH", .optionalV2⟩,
   ⟨"cuMemcpyDtoHAsync", .optionalV2⟩,
   ⟨"cuMemcpyHtoA", .optionalV2⟩,
   ⟨"cuMemcpyHtoAAsync", .optionalV2⟩,
   ⟨"cuMemcpyHtoD", .optionalV2⟩,
   ⟨"cuMemcpyHtoDAsync", .optionalV2⟩,
   ⟨"cuMemHostGetDevicePointer", .optionalV2⟩,
   ⟨"cuMemsetD8", .requiredV2⟩,
   ⟨"cuMemsetD8Async", .required⟩,
   ⟨"cuMemsetD16", .optionalV2⟩,
   ⟨"cuMemsetD16Async", .optionalSym⟩,
   ⟨"cuMemsetD32", .optionalV2⟩,
   ⟨"cuMemsetD32Async", .optionalSym⟩,
   ⟨"cuStreamCreate", .required⟩,
   ⟨"cuStreamDestroy", .requiredV2⟩,
   ⟨"cuStreamSynchronize", .required⟩,
   ⟨"cuStreamCreateWithPriority", .optionalSym⟩,
   ⟨"cuStreamGetPriority", .optionalSym⟩,
   ⟨"cuGraphicsMapResources", .required⟩,
   ⟨"cuGraphicsSubResourceGetMappedArray", .required⟩,
   ⟨"cuGraphicsUnmapResources", .required⟩,
   ⟨"cuGraphicsUnregisterResource", .required⟩] ++
  (if win32 then
    [⟨"cuD3D10GetDevice", .required⟩,
     ⟨"cuGraphicsD3D10RegisterResource", .optionalSym⟩,
     ⟨"cuD3D11GetDevice", .required⟩,
     ⟨"cuGraphicsD3D11RegisterResource", .optionalSym⟩]
   else [])

/-- The whole resolution table of one construction run, in resolution order. -/
def allEntries (win32 : Bool) : List SymEntry :=
  phase1Table ++ mainTable win32

/-- Version decoding exactly as in the constructor (lines 109-111): C++
`int32_t` division and modulo truncate toward zero, i.e. `Int.tdiv`/`Int.tmod`. -/
def decodeVersion (v : Int) : Int × Int × Int :=
  (v.tdiv 1000, ((v.tmod 1000).tdiv 10, v.tmod 10))

/-- The `D_LOG_INFO` driver-version report (line 112). -/
def versionInfoMsg (d : Int × Int × Int) : String :=
  "Driver reported CUDA version: " ++ toString d.1 ++ "." ++ toString d.2.1
    ++ "." ++ toString d.2.2

/-- The `D_LOG_WARNING` when the version query fails (line 114). -/
def versionFailMsg : String :=
  "Failed to query NVIDIA CUDA Driver for version."

/-- External behavior a construction run can observe. `queryVersion = some v`
models `cuDriverGetVersion` returning `SUCCESS` having written `v`; `none`
models a non-`SUCCESS` return (nothing written). `initRet` is the return
value of `cuInit`, which the code never reads. `libOpen = false` models
`streamfx::util::library::load` failing.

Modelled from the spec: the library-open collaborator
(`streamfx::util::library`) is not part of this repository slice; the spec
says "If the native library cannot be opened, construction fails", which we
model as an error thrown before any symbol resolution. -/
structure Env where
  libOpen : Bool
  L : Loader
  queryVersion : Option Int
  initRet : Int
  win32 : Bool

/-- Step 2 of the constructor (lines 107-116): query the driver version,
log the decoded version on success, warn on failure. -/
def versionEvents (env : Env) : List Event :=
  match env.queryVersion with
  | some v => [.callGetVersion, .logInfo (versionInfoMsg (decodeVersion v))]
  | none => [.callGetVersion, .logWarning versionFailMsg]

/-- The entry-point bindings of a constructed handle: logical name paired
with the resolved pointer (null for missing optional symbols). -/
abbrev Handle := List (String × Option Nat)

/-- The constructor `streamfx::nvidia::cuda::cuda::cuda()` (lines 91-250):
open the library, resolve `cuInit`/`cuDriverGetVersion`, query and log the
driver version, resolve the remaining table, then call `cuInit(0)` without
inspecting its result. Returns the full event trace together with either
the thrown error message or the constructed handle. -/
def construct (env : Env) : List Event × Except String Handle :=
  if env.libOpen then
    let lib := cudaName env.win32
    match resolveTable lib env.L phase1Table with
    | (.error m, ev1) => (ev1, .error m)
    | (.ok b1, ev1) =>
      let ev2 := versionEvents env
      match resolveTable lib env.L (mainTable env.win32) with
      | (.error m, ev3) => (ev1 ++ ev2 ++ ev3, .error m)
      | (.ok b2, ev3) => (ev1 ++ ev2 ++ ev3 ++ [.callInit 0], .ok (b1 ++ b2))
  else ([], .error "Failed to load library.")

/-- `streamfx::nvidia::cuda::cuda::version()` (lines 252-257): `v` starts at
0, `cuDriverGetVersion(&v)` may overwrite it, its return code is ignored,
and `v` is returned; nothing can throw. -/
def version (env : Env) : Int × List Event :=
  (match env.queryVersion with
   | some v => v
   | none => 0, [.callGetVersion])

/-- The process-wide registry of `cuda::get()` (lines 259-271): the static
`std::weak_ptr instance` plus the strong reference counts of every handle
ever constructed. `refcnt` is indexed by handle id (ids are handed out in
construction order, so a handle's id is the number of constructions that
preceded it); `slot` is the weak pointer's target; `constructions` counts
how many times the constructor has run. -/
structure Registry where
  refcnt : List Nat
  slot : Option Nat
  constructions : Nat
deriving DecidableEq, Repr

/-- Strong reference count of handle `id` (0 for ids never constructed). -/
def Registry.refcountOf (r : Registry) (id : Nat) : Nat :=
  r.refcnt.getD id 0

/-- `instance.expired()`: true when the weak slot is empty or its target has
no strong references left. -/
def Registry.isExpired (r : Registry) : Bool :=
  match r.slot with
  | none => true
  | some id => r.refcountOf id == 0

/-- The registry before the first call: empty weak slot, nothing constructed. -/
def Registry.start : Registry :=
  ⟨[], none, 0⟩

/-- The body of `get()` when `instance.expired()`: `std::make_shared` runs the
constructor (outcome `c`); a thrown error propagates with the static state
untouched, otherwise the new handle (one strong reference) is stored in the
weak slot and returned. -/
def getFresh (c : Except String Unit) (r : Registry) :
    Except String (Nat × Registry) :=
  match c with
  | .error e => .error e
  | .ok _ => .ok (r.refcnt.length,
      ⟨r.refcnt ++ [1], some r.refcnt.length, r.constructions + 1⟩)

/-- `streamfx::nvidia::cuda::cuda::get()` (lines 259-271), under the lock:
if the weak slot holds a live handle, `instance.lock()` hands out one more
strong reference to that same handle and the constructor does not run;
otherwise a fresh handle is constructed. `c` is the outcome the constructor
would have. Returns the id of the handle the caller receives plus the
updated static state. -/
def get (c : Except String Unit) (r : Registry) :
    Except String (Nat × Registry) :=
  match r.slot with
  | some id =>
    if 0 < r.refcountOf id then
      .ok (id, { r with refcnt := r.refcnt.set id (r.refcountOf id + 1) })
    else getFresh c r
  | none => getFresh c r

/-- A consumer drops its strong reference to handle `id` (shared_ptr
destructor). -/
def release (r : Registry) (id : Nat) : Registry :=
  { r with refcnt := r.refcnt.set id (r.refcountOf id - 1) }

/-- Registry states reachable from process start by calls to `get` and by
consumers releasing references. -/
inductive Reachable : Registry → Prop
| start : Reachable Registry.start
| step_get (c : Except String Unit) (r : Registry) (id : Nat) (r2 : Registry) :
    Reachable r → get c r = .ok (id, r2) → Reachable r2
| step_release (r : Registry) (id : Nat) :
    Reachable r → Reachable (release r id)

/-- `get` tied to the real constructor: the accessor's `std::make_shared`
runs `construct`, whose error (if any) propagates to the caller. -/
def getShared (env : Env) (r : Registry) : Except String (Nat × Registry) :=
  get ((construct env).2.map fun _ => ()) r

/-- The registry invariant: only the handle the weak slot points to can have
strong references. -/
def Inv (r : Registry) : Prop :=
  ∀ id, 0 < r.refcountOf id → r.slot = some id

/-- Recognizer for driver-initialization call events. -/
def Event.isInit : Event → Bool
  | .callInit _ => true
  | _ => false

/-- A loader that resolves every symbol. -/
def okLoader : Loader := fun _ => some 1

/-- A loader that nulls exactly the versioned memory-allocation symbol. -/
def noMemAllocLoader : Loader :=
  fun s2 => if s2 = "cuMemAlloc_v2" then none else some 1

/-- A loader that nulls exactly the optional cuCtxGetCurrent symbol. -/
def noCtxGetCurrentLoader : Loader :=
  fun s2 => if s2 = "cuCtxGetCurrent" then none else some 1

/-- Non-Windows environment with a fully functional driver. -/
def envOk : Env := ⟨true, okLoader, some 11020, 0, false⟩

/-- Environment whose loader cannot find cuMemAlloc_v2 (a required symbol). -/
def envNoMemAlloc : Env := ⟨true, noMemAllocLoader, none, 0, false⟩

/-- Environment whose loader cannot find cuCtxGetCurrent (optional). -/
def envNoCtxGetCurrent : Env := ⟨true, noCtxGetCurrentLoader, some 11020, 0, false⟩

theorem refcountOf_def (r : Registry) (j : Nat) :
    r.refcountOf j = r.refcnt[j]?.getD 0 :=
  List.getD_eq_getElem?_getD _ _ _

theorem refcountOf_set_ne (r : Registry) (i j v : Nat) (h : i ≠ j) :
    Registry.refcountOf { r with refcnt := r.refcnt.set i v } j =
      r.refcountOf j := by
  rw [refcountOf_def, refcountOf_def]
  simp only []
  rw [List.getElem?_set_ne h]

theorem refcountOf_set_self (r : Registry) (i v : Nat)
    (h : i < r.refcnt.length) :
    Registry.refcountOf { r with refcnt := r.refcnt.set i v } i = v := by
  rw [refcountOf_def]
  simp only []
  rw [List.getElem?_set_self h]
  rfl

theorem getD_append_one (l : List Nat) (j : Nat) :
    (l ++ [1]).getD j 0 =
      if j < l.length then l.getD j 0 else if j = l.length then 1 else 0 := by
  rw [List.getD_eq_getElem?_getD, List.getD_eq_getElem?_getD,
    List.getElem?_append]
  by_cases h1 : j < l.length
  · simp [h1]
  · by_cases h2 : j = l.length
    · subst h2
      simp
    · have h3 : ([1] : List Nat)[j - l.length]? = none := by
        apply List.getElem?_eq_none
        simp only [List.length_singleton]
        omega
      simp [h1, h2, h3]

theorem get_slot_none (c : Except String Unit) (r : Registry)
    (h : r.slot = none) : get c r = getFresh c r := by
  unfold get
  rw [h]

theorem get_slot_live (c : Except String Unit) (r : Registry) (id : Nat)
    (hs : r.slot = some id) (hl : 0 < r.refcountOf id) :
    get c r =
      .ok (id, { r with refcnt := r.refcnt.set id (r.refcountOf id + 1) }) := by
  unfold get
  rw [hs]
  simp only [if_pos hl]

theorem get_slot_dead (c : Except String Unit) (r : Registry) (id : Nat)
    (hs : r.slot = some id) (hl : ¬ 0 < r.refcountOf id) :
    get c r = getFresh c r := by
  unfold get
  rw [hs]
  simp only [if_neg hl]

theorem getFresh_ok {c : Except String Unit} {r : Registry} {id : Nat}
    {r2 : Registry} (h : getFresh c r = .ok (id, r2)) :
    id = r.refcnt.length ∧
      r2 = ⟨r.refcnt ++ [1], some r.refcnt.length, r.constructions + 1⟩ := by
  cases c with
  | error e => simp [getFresh] at h
  | ok u =>
    simp only [getFresh, Except.ok.injEq, Prod.mk.injEq] at h
    exact ⟨h.1.symm, h.2.symm⟩

theorem release_refcountOf (r : Registry) (id j : Nat) :
    (release r id).refcountOf j =
      if id = j ∧ id < r.refcnt.length then r.refcountOf id - 1
      else r.refcountOf j := by
  unfold release
  by_cases hij : id = j
  · subst hij
    by_cases hl : id < r.refcnt.length
    · rw [refcountOf_set_self r id _ hl]
      simp [hl]
    · have hnoop : r.refcnt.set id (r.refcountOf id - 1) = r.refcnt :=
        List.set_eq_of_length_le (by omega)
      rw [hnoop, if_neg (fun h => hl h.2)]
  · rw [refcountOf_set_ne r id j _ hij]
    simp [hij]

theorem reachable_inv {r : Registry} (h : Reachable r) : Inv r := by
  induction h with
  | start =>
    intro id h0
    simp [Registry.refcountOf, Registry.start, List.getD] at h0
  | step_get c r id r2 hr hget ih =>
    intro j hj
    have fresh_case : getFresh c r = .ok (id, r2) →
        (∀ k, ¬ 0 < r.refcountOf k) → r2.slot = some j := by
      intro hg hdead
      obtain ⟨hid, hr2⟩ := getFresh_ok hg
      subst hr2
      by_cases hjl : j = r.refcnt.length
      · simp [hjl]
      · exfalso
        have hj2 : 0 < (r.refcnt ++ [1]).getD j 0 := hj
        rw [getD_append_one] at hj2
        by_cases h1 : j < r.refcnt.length
        · rw [if_pos h1] at hj2
          exact hdead j hj2
        · rw [if_neg h1, if_neg hjl] at hj2
          omega
    rcases hslot : r.slot with _ | id0
    · have hdead : ∀ k, ¬ 0 < r.refcountOf k := by
        intro k hk
        have := ih k hk
        rw [hslot] at this
        cases this
      rw [get_slot_none c r hslot] at hget
      exact fresh_case hget hdead
    · by_cases hl : 0 < r.refcountOf id0
      · rw [get_slot_live c r id0 hslot hl] at hget
        injection hget with hget
        injection hget with hid hr2
        subst hr2
        by_cases hji : j = id0
        · subst hji
          simp [hslot]
        · rw [refcountOf_set_ne r id0 j _ (fun h => hji h.symm)] at hj
          have := ih j hj
          rw [hslot] at this
          exact absurd (Option.some.inj this).symm hji
      · have hdead : ∀ k, ¬ 0 < r.refcountOf k := by
          intro k hk
          have := ih k hk
          rw [hslot] at this
          have hk0 : k = id0 := (Option.some.inj this).symm
          subst hk0
          exact hl hk
        rw [get_slot_dead c r id0 hslot hl] at hget
        exact fresh_case hget hdead
  | step_release r id hr ih =>
    intro j hj
    have hslot2 : (release r id).slot = r.slot := rfl
    rw [release_refcountOf] at hj
    rw [hslot2]
    by_cases hc : id = j ∧ id < r.refcnt.length
    · rw [if_pos hc] at hj
      have : 0 < r.refcountOf id := by omega
      rw [← hc.1]
      exact ih id this
    · rw [if_neg hc] at hj
      exact ih j hj

/-- C1: while a previously returned handle is live (reference count > 0), a
further call to `get` returns that same handle id, runs no construction
(`constructions` unchanged), and at most one live handle exists. -/
theorem get_live_identity (r : Registry) (id : Nat) (c : Except String Unit)
    (hr : Reachable r) (hs : r.slot = some id) (hl : 0 < r.refcountOf id) :
    (∃ r2, get c r = .ok (id, r2) ∧ r2.constructions = r.constructions) ∧
    ∀ j k, 0 < r.refcountOf j → 0 < r.refcountOf k → j = k := by
  constructor
  · exact ⟨_, get_slot_live c r id hs hl, rfl⟩
  · intro j k hj hk
    have h1 := reachable_inv hr j hj
    have h2 := reachable_inv hr k hk
    rw [h1] at h2
    exact Option.some.inj h2

/-- Witness for C1 at the concrete state after one successful `get`. -/
theorem get_live_identity_witness :
    ∃ r2, get (.ok ()) ⟨[1], some 0, 1⟩ = .ok (0, r2) ∧
      r2.constructions = 1 :=
  (get_live_identity ⟨[1], some 0, 1⟩ 0 (.ok ())
    (Reachable.step_get (.ok ()) Registry.start 0 ⟨[1], some 0, 1⟩
      Reachable.start rfl) rfl (by decide)).1

/-- C5: when no live handle exists and construction fails, the error
propagates out of `get` unchanged, and a retry from the same registry state
runs a fresh construction (one more `constructions`, slot newly filled). -/
theorem get_error_retry (r : Registry) (env : Env) (e : String)
    (hexp : r.isExpired = true)
    (hc : (construct env).2 = .error e) :
    getShared env r = .error e ∧
    ∃ r2, get (.ok ()) r = .ok (r.refcnt.length, r2) ∧
      r2.constructions = r.constructions + 1 ∧
      r2.slot = some r.refcnt.length := by
  have hfresh : ∀ c : Except String Unit, get c r = getFresh c r := by
    intro c
    rcases hslot : r.slot with _ | id0
    · exact get_slot_none c r hslot
    · unfold Registry.isExpired at hexp
      rw [hslot] at hexp
      simp only [beq_iff_eq] at hexp
      exact get_slot_dead c r id0 hslot (by omega)
  constructor
  · unfold getShared
    rw [hfresh, hc]
    rfl
  · rw [hfresh]
    exact ⟨_, rfl, rfl, rfl⟩

/-- Witness for C5: empty registry, construction failing at library open. -/
theorem get_error_retry_witness :
    getShared ⟨false, fun _ => none, none, 0, false⟩ Registry.start =
        .error "Failed to load library." ∧
    ∃ r2, get (.ok ()) Registry.start = .ok (0, r2) ∧
      r2.constructions = 1 ∧ r2.slot = some 0 :=
  get_error_retry Registry.start ⟨false, fun _ => none, none, 0, false⟩
    "Failed to load library." rfl rfl

theorem resolveSym_some (lib : String) (L : Loader) (e : SymEntry) (p : Nat)
    (h : L e.loadName = some p) :
    resolveSym lib L e = (.ok (e.name, some p), [.resolve e.loadName]) := by
  unfold resolveSym
  rw [h]

theorem resolveSym_none_req (lib : String) (L : Loader) (e : SymEntry)
    (h : L e.loadName = none) (hr : e.policy.isRequired = true) :
    resolveSym lib L e = (.error (errMsg lib e.name), [.resolve e.loadName]) := by
  unfold resolveSym
  rw [h]
  simp [hr]

theorem resolveSym_none_opt (lib : String) (L : Loader) (e : SymEntry)
    (h : L e.loadName = none) (hr : e.policy.isRequired = false) :
    resolveSym lib L e =
      (.ok (e.name, none), [.resolve e.loadName, .logWarning (warnMsg e.name)]) := by
  unfold resolveSym
  rw [h]
  simp [hr]

theorem resolveSym_events (lib : String) (L : Loader) (e : SymEntry) :
    (resolveSym lib L e).2 = [.resolve e.loadName] ∨
    (resolveSym lib L e).2 =
      [.resolve e.loadName, .logWarning (warnMsg e.name)] := by
  unfold resolveSym
  rcases L e.loadName with _ | p
  · by_cases h : e.policy.isRequired <;> simp [h]
  · simp

theorem resolveTable_nil (lib : String) (L : Loader) :
    resolveTable lib L [] = (.ok [], []) := rfl

theorem resolveTable_cons_err (lib : String) (L : Loader) (e : SymEntry)
    (t : List SymEntry) (m : String) (ev : List Event)
    (h : resolveSym lib L e = (.error m, ev)) :
    resolveTable lib L (e :: t) = (.error m, ev) := by
  simp only [resolveTable, h]

theorem resolveTable_cons_ok_err (lib : String) (L : Loader) (e : SymEntry)
    (t : List SymEntry) (b : String × Option Nat) (ev : List Event)
    (m : String) (ev2 : List Event)
    (h : resolveSym lib L e = (.ok b, ev))
    (h2 : resolveTable lib L t = (.error m, ev2)) :
    resolveTable lib L (e :: t) = (.error m, ev ++ ev2) := by
  simp only [resolveTable, h, h2]

theorem resolveTable_cons_ok_ok (lib : String) (L : Loader) (e : SymEntry)
    (t : List SymEntry) (b : String × Option Nat) (ev : List Event)
    (bs : List (String × Option Nat)) (ev2 : List Event)
    (h : resolveSym lib L e = (.ok b, ev))
    (h2 : resolveTable lib L t = (.ok bs, ev2)) :
    resolveTable lib L (e :: t) = (.ok (b :: bs), ev ++ ev2) := by
  simp only [resolveTable, h, h2]

theorem resolveTable_resolve_mem (lib : String) (L : Loader) :
    ∀ t : List SymEntry, ∀ s, Event.resolve s ∈ (resolveTable lib L t).2 →
      s ∈ t.map SymEntry.loadName := by
  intro t
  induction t with
  | nil => intro s hs; rw [resolveTable_nil] at hs; cases hs
  | cons e t ih =>
    intro s hs
    have hone : Event.resolve s ∈ (resolveSym lib L e).2 → s = e.loadName := by
      intro hin
      rcases resolveSym_events lib L e with h | h <;> rw [h] at hin <;>
        simpa using hin
    rcases hsym : resolveSym lib L e with ⟨rs, ev⟩
    cases rs with
    | error m =>
      rw [resolveTable_cons_err lib L e t m ev hsym] at hs
      have := hone (by rw [hsym]; exact hs)
      simp [this]
    | ok b =>
      rcases ht : resolveTable lib L t with ⟨rt, ev2⟩
      have hsplit : Event.resolve s ∈ ev ++ ev2 := by
        cases rt with
        | error m =>
          rw [resolveTable_cons_ok_err lib L e t b ev m ev2 hsym ht] at hs
          exact hs
        | ok bs =>
          rw [resolveTable_cons_ok_ok lib L e t b ev bs ev2 hsym ht] at hs
          exact hs
      rcases List.mem_append.mp hsplit with h | h
      · have := hone (by rw [hsym]; exact h)
        simp [this]
      · have := ih s (by rw [ht]; exact h)
        simp [this]

theorem resolveTable_ok_required (lib : String) (L : Loader) :
    ∀ t : List SymEntry, ∀ bs, (resolveTable lib L t).1 = .ok bs →
      ∀ e ∈ t, e.policy.isRequired = true →
        ∃ p, L e.loadName = some p ∧ (e.name, some p) ∈ bs := by
  intro t
  induction t with
  | nil => intro bs hbs e he; cases he
  | cons a t ih =>
    intro bs hbs e he hreq
    rcases hsym : resolveSym lib L a with ⟨rs, ev⟩
    cases rs with
    | error m =>
      rw [resolveTable_cons_err lib L a t m ev hsym] at hbs
      cases hbs
    | ok b =>
      rcases ht : resolveTable lib L t with ⟨rt, ev2⟩
      cases rt with
      | error m =>
        rw [resolveTable_cons_ok_err lib L a t b ev m ev2 hsym ht] at hbs
        cases hbs
      | ok bs2 =>
        rw [resolveTable_cons_ok_ok lib L a t b ev bs2 ev2 hsym ht] at hbs
        simp only [Except.ok.injEq] at hbs
        subst hbs
        rcases List.mem_cons.mp he with heq | he
        · rw [← heq] at hsym
          rcases hL : L e.loadName with _ | p
          · rw [resolveSym_none_req lib L e hL hreq] at hsym
            cases hsym
          · rw [resolveSym_some lib L e p hL] at hsym
            injection hsym with hb hev
            injection hb with hb
            exact ⟨p, rfl, by rw [← hb]; exact List.mem_cons_self _ _⟩
        · obtain ⟨p, hp, hmem⟩ := ih bs2 (by rw [ht]) e he hreq
          exact ⟨p, hp, List.mem_cons_of_mem _ hmem⟩

theorem resolveTable_ok_optional (lib : String) (L : Loader) :
    ∀ t : List SymEntry, ∀ bs, (resolveTable lib L t).1 = .ok bs →
      ∀ e ∈ t, e.policy.isRequired = false → L e.loadName = none →
        (e.name, (none : Option Nat)) ∈ bs ∧
          Event.logWarning (warnMsg e.name) ∈ (resolveTable lib L t).2 := by
  intro t
  induction t with
  | nil => intro bs hbs e he; cases he
  | cons a t ih =>
    intro bs hbs e he hopt hnull
    rcases hsym : resolveSym lib L a with ⟨rs, ev⟩
    cases rs with
    | error m =>
      rw [resolveTable_cons_err lib L a t m ev hsym] at hbs
      cases hbs
    | ok b =>
      rcases ht : resolveTable lib L t with ⟨rt, ev2⟩
      cases rt with
      | error m =>
        rw [resolveTable_cons_ok_err lib L a t b ev m ev2 hsym ht] at hbs
        cases hbs
      | ok bs2 =>
        have hcons := resolveTable_cons_ok_ok lib L a t b ev bs2 ev2 hsym ht
        rw [hcons] at hbs
        simp only [Except.ok.injEq] at hbs
        subst hbs
        rw [hcons]
        rcases List.mem_cons.mp he with heq | he
        · rw [← heq] at hsym
          rw [resolveSym_none_opt lib L e hnull hopt] at hsym
          injection hsym with hb hev
          injection hb with hb
          constructor
          · rw [← hb]
            exact List.mem_cons_self _ _
          · simp only [List.mem_append]
            left
            rw [← hev]
            simp
        · obtain ⟨hmem, hwarn⟩ := ih bs2 (by rw [ht]) e he hopt hnull
          refine ⟨List.mem_cons_of_mem _ hmem, ?_⟩
          simp only [List.mem_append]
          right
          rw [ht] at hwarn
          exact hwarn

theorem resolveTable_ok_of_required (lib : String) (L : Loader) :
    ∀ t : List SymEntry,
      (∀ e ∈ t, e.policy.isRequired = true → ∃ p, L e.loadName = some p) →
      ∃ bs, (resolveTable lib L t).1 = .ok bs := by
  intro t
  induction t with
  | nil => intro h0; exact ⟨[], rfl⟩
  | cons a t ih =>
    intro hall
    obtain ⟨bs2, hbs2⟩ := ih (fun e he hr => hall e (List.mem_cons_of_mem _ he) hr)
    rcases ht : resolveTable lib L t with ⟨rt, ev2⟩
    rw [ht] at hbs2
    simp only at hbs2
    subst hbs2
    rcases hL : L a.loadName with _ | p
    · have hnr : a.policy.isRequired = false := by
        by_cases h : a.policy.isRequired = true
        · obtain ⟨p, hp⟩ := hall a (List.mem_cons_self _ _) h
          rw [hL] at hp
          cases hp
        · simp at h
          exact h
      rw [resolveTable_cons_ok_ok lib L a t _ _ bs2 ev2
        (resolveSym_none_opt lib L a hL hnr) ht]
      exact ⟨_, rfl⟩
    · rw [resolveTable_cons_ok_ok lib L a t _ _ bs2 ev2
        (resolveSym_some lib L a p hL) ht]
      exact ⟨_, rfl⟩

theorem resolveTable_required_null (lib : String) (L : Loader) :
    ∀ t : List SymEntry, (t.map SymEntry.loadName).Nodup →
      ∀ e ∈ t, e.policy.isRequired = true →
        Event.resolve e.loadName ∈ (resolveTable lib L t).2 →
        L e.loadName = none →
        (resolveTable lib L t).1 = .error (errMsg lib e.name) := by
  intro t
  induction t with
  | nil => intro _ e he; cases he
  | cons a t ih =>
    intro hnd e he hreq hev hnull
    rcases List.mem_cons.mp he with heq | he
    · -- e is the head: required, null, so resolveSym errors and stops here
      rw [heq] at hreq hnull ⊢
      rw [resolveTable_cons_err lib L a t _ _
        (resolveSym_none_req lib L a hnull hreq)]
    · -- e in the tail: the head a cannot produce e's resolve event (nodup)
      have hnd2 : (t.map SymEntry.loadName).Nodup :=
        (List.nodup_cons.mp hnd).2
      have hna : a.loadName ∉ t.map SymEntry.loadName :=
        (List.nodup_cons.mp hnd).1
      have hne : e.loadName ≠ a.loadName := by
        intro hcontra
        exact hna (hcontra ▸ List.mem_map_of_mem SymEntry.loadName he)
      rcases hsym : resolveSym lib L a with ⟨rs, ev⟩
      have hev_not_a : Event.resolve e.loadName ∉ ev := by
        intro hin
        have : Event.resolve e.loadName ∈ (resolveSym lib L a).2 := by
          rw [hsym]; exact hin
        rcases resolveSym_events lib L a with h | h <;> rw [h] at this <;>
          simp at this <;> exact hne this
      cases rs with
      | error m =>
        rw [resolveTable_cons_err lib L a t m ev hsym] at hev
        exact absurd hev hev_not_a
      | ok b =>
        rcases ht : resolveTable lib L t with ⟨rt, ev2⟩
        have hev2 : Event.resolve e.loadName ∈ ev2 := by
          cases rt with
          | error m =>
            rw [resolveTable_cons_ok_err lib L a t b ev m ev2 hsym ht] at hev
            rcases List.mem_append.mp hev with h | h
            · exact absurd h hev_not_a
            · exact h
          | ok bs =>
            rw [resolveTable_cons_ok_ok lib L a t b ev bs ev2 hsym ht] at hev
            rcases List.mem_append.mp hev with h | h
            · exact absurd h hev_not_a
            · exact h
        have hrec := ih hnd2 e he hreq (by rw [ht]; exact hev2) hnull
        rw [ht] at hrec
        simp only at hrec
        subst hrec
        rw [resolveTable_cons_ok_err lib L a t b ev _ ev2 hsym ht]

theorem versionEvents_no_resolve (env : Env) (s : String) :
    Event.resolve s ∉ versionEvents env := by
  unfold versionEvents
  rcases env.queryVersion with _ | v <;> simp

theorem versionEvents_query (env : Env) :
    Event.callGetVersion ∈ versionEvents env := by
  unfold versionEvents
  rcases env.queryVersion with _ | v <;> simp

theorem versionEvents_no_init (env : Env) (a : Int) :
    Event.callInit a ∉ versionEvents env := by
  unfold versionEvents
  rcases env.queryVersion with _ | v <;> simp

theorem allEntries_loadName_nodup (w : Bool) :
    ((allEntries w).map SymEntry.loadName).Nodup := by
  cases w <;> decide

theorem construct_noLib (env : Env) (h : env.libOpen = false) :
    construct env = ([], .error "Failed to load library.") := by
  unfold construct
  rw [h]
  rfl

theorem construct_cases (env : Env) (hlib : env.libOpen = true) :
    (∃ m ev1,
      resolveTable (cudaName env.win32) env.L phase1Table = (.error m, ev1) ∧
      construct env = (ev1, .error m)) ∨
    (∃ b1 ev1 m ev3,
      resolveTable (cudaName env.win32) env.L phase1Table = (.ok b1, ev1) ∧
      resolveTable (cudaName env.win32) env.L (mainTable env.win32) =
        (.error m, ev3) ∧
      construct env = (ev1 ++ versionEvents env ++ ev3, .error m)) ∨
    (∃ b1 ev1 b2 ev3,
      resolveTable (cudaName env.win32) env.L phase1Table = (.ok b1, ev1) ∧
      resolveTable (cudaName env.win32) env.L (mainTable env.win32) =
        (.ok b2, ev3) ∧
      construct env =
        (ev1 ++ versionEvents env ++ ev3 ++ [.callInit 0], .ok (b1 ++ b2))) := by
  rcases h1 : resolveTable (cudaName env.win32) env.L phase1Table with ⟨r1, ev1⟩
  cases r1 with
  | error m =>
    left
    refine ⟨m, ev1, rfl, ?_⟩
    unfold construct
    rw [hlib]
    simp only [if_true, h1]
  | ok b1 =>
    rcases h3 : resolveTable (cudaName env.win32) env.L (mainTable env.win32)
      with ⟨r3, ev3⟩
    cases r3 with
    | error m =>
      right; left
      refine ⟨b1, ev1, m, ev3, rfl, rfl, ?_⟩
      unfold construct
      rw [hlib]
      simp only [if_true, h1, h3]
    | ok b2 =>
      right; right
      refine ⟨b1, ev1, b2, ev3, rfl, rfl, ?_⟩
      unfold construct
      rw [hlib]
      simp only [if_true, h1, h3]

/-- C2: whenever construction queries the loader for a required symbol (exact
or versioned) and gets null, construction fails with the error naming that
symbol and the library file, producing no handle, regardless of how the
loader treats any other (optional) symbol; conversely, when construction
succeeds every required entry point is bound to a non-null pointer. -/
theorem required_symbol_policy (env : Env) :
    (∀ e ∈ allEntries env.win32, e.policy.isRequired = true →
      Event.resolve e.loadName ∈ (construct env).1 →
      env.L e.loadName = none →
      (construct env).2 = .error (errMsg (cudaName env.win32) e.name)) ∧
    (∀ hh, (construct env).2 = .ok hh →
      ∀ e ∈ allEntries env.win32, e.policy.isRequired = true →
        ∃ p, env.L e.loadName = some p ∧ (e.name, some p) ∈ hh) := by
  have hnodup := allEntries_loadName_nodup env.win32
  rw [allEntries, List.map_append, List.nodup_append] at hnodup
  obtain ⟨nd1, nd2, disj⟩ := hnodup
  by_cases hlib : env.libOpen = true
  case neg =>
    have hno := construct_noLib env (by simpa using hlib)
    constructor
    · intro e hmem hreq hev hnull
      rw [hno] at hev
      cases hev
    · intro hh hok
      rw [hno] at hok
      cases hok
  case pos =>
  rcases construct_cases env hlib with
    ⟨m, ev1, h1, hcon⟩ | ⟨b1, ev1, m, ev3, h1, h3, hcon⟩ |
    ⟨b1, ev1, b2, ev3, h1, h3, hcon⟩
  · -- phase 1 failed: the trace is exactly the phase-1 events
    constructor
    · intro e hmem hreq hev hnull
      have hev1 : Event.resolve e.loadName ∈ ev1 := by
        rw [hcon] at hev
        exact hev
      rcases List.mem_append.mp hmem with hph | hmn
      · have hres := resolveTable_required_null (cudaName env.win32) env.L
          phase1Table nd1 e hph hreq (by rw [h1]; exact hev1) hnull
        rw [h1] at hres
        simp only [Except.error.injEq] at hres
        rw [hcon, hres]
      · exfalso
        have hmem1 : e.loadName ∈ phase1Table.map SymEntry.loadName :=
          resolveTable_resolve_mem _ _ _ _ (by rw [h1]; exact hev1)
        exact disj hmem1 (List.mem_map_of_mem SymEntry.loadName hmn)
    · intro hh hok
      rw [hcon] at hok
      cases hok
  · -- phase 1 succeeded, the main table failed
    constructor
    · intro e hmem hreq hev hnull
      have hev1 : Event.resolve e.loadName ∈ ev1 ++ versionEvents env ++ ev3 := by
        rw [hcon] at hev
        exact hev
      rcases List.mem_append.mp hmem with hph | hmn
      · exfalso
        obtain ⟨p, hp, hpb⟩ := resolveTable_ok_required _ _ phase1Table b1
          (by rw [h1]) e hph hreq
        rw [hnull] at hp
        cases hp
      · have hev3 : Event.resolve e.loadName ∈ ev3 := by
          rcases List.mem_append.mp hev1 with h | h
          · rcases List.mem_append.mp h with h | h
            · exfalso
              have hmem1 : e.loadName ∈ phase1Table.map SymEntry.loadName :=
                resolveTable_resolve_mem _ _ _ _ (by rw [h1]; exact h)
              exact disj hmem1 (List.mem_map_of_mem SymEntry.loadName hmn)
            · exact absurd h (versionEvents_no_resolve env _)
          · exact h
        have hres := resolveTable_required_null (cudaName env.win32) env.L
          (mainTable env.win32) nd2 e hmn hreq (by rw [h3]; exact hev3) hnull
        rw [h3] at hres
        simp only [Except.error.injEq] at hres
        rw [hcon, hres]
    · intro hh hok
      rw [hcon] at hok
      cases hok
  · -- both succeeded: a queried-and-null required symbol is impossible
    constructor
    · intro e hmem hreq hev hnull
      exfalso
      rcases List.mem_append.mp hmem with hph | hmn
      · obtain ⟨p, hp, hpb⟩ := resolveTable_ok_required _ _ phase1Table b1
          (by rw [h1]) e hph hreq
        rw [hnull] at hp
        cases hp
      · obtain ⟨p, hp, hpb⟩ := resolveTable_ok_required _ _
          (mainTable env.win32) b2 (by rw [h3]) e hmn hreq
        rw [hnull] at hp
        cases hp
    · intro hh hok
      rw [hcon] at hok
      have hok2 : Except.ok (ε := String) (b1 ++ b2) = .ok hh := hok
      injection hok2 with hh_eq
      intro e hmem hreq
      rcases List.mem_append.mp hmem with hph | hmn
      · obtain ⟨p, hp, hpb⟩ := resolveTable_ok_required _ _ phase1Table b1
          (by rw [h1]) e hph hreq
        exact ⟨p, hp, by rw [← hh_eq]; exact List.mem_append_left _ hpb⟩
      · obtain ⟨p, hp, hpb⟩ := resolveTable_ok_required _ _
          (mainTable env.win32) b2 (by rw [h3]) e hmn hreq
        exact ⟨p, hp, by rw [← hh_eq]; exact List.mem_append_right _ hpb⟩

/-- C3: a missing optional symbol does not abort construction: provided the
library opens and every required symbol resolves, construction still
succeeds, the optional entry point is bound null under its logical name,
and a warning naming it is logged. -/
theorem optional_symbol_policy (env : Env) (e : SymEntry)
    (hmem : e ∈ mainTable env.win32) (hopt : e.policy.isRequired = false)
    (hnull : env.L e.loadName = none)
    (hreq : ∀ e2 ∈ allEntries env.win32, e2.policy.isRequired = true →
      ∃ p, env.L e2.loadName = some p)
    (hlib : env.libOpen = true) :
    ∃ hh, (construct env).2 = .ok hh ∧
      (e.name, (none : Option Nat)) ∈ hh ∧
      Event.logWarning (warnMsg e.name) ∈ (construct env).1 := by
  obtain ⟨bs1, hbs1⟩ := resolveTable_ok_of_required (cudaName env.win32) env.L
    phase1Table (fun e2 he2 hr => hreq e2 (List.mem_append_left _ he2) hr)
  obtain ⟨bs2, hbs2⟩ := resolveTable_ok_of_required (cudaName env.win32) env.L
    (mainTable env.win32)
    (fun e2 he2 hr => hreq e2 (List.mem_append_right _ he2) hr)
  rcases construct_cases env hlib with
    ⟨m, ev1, h1, hcon⟩ | ⟨b1, ev1, m, ev3, h1, h3, hcon⟩ |
    ⟨b1, ev1, b2, ev3, h1, h3, hcon⟩
  · rw [h1] at hbs1
    simp at hbs1
  · rw [h3] at hbs2
    simp at hbs2
  · obtain ⟨hb, hwarn⟩ := resolveTable_ok_optional _ _ (mainTable env.win32)
      b2 (by rw [h3]) e hmem hopt hnull
    have hw3 : Event.logWarning (warnMsg e.name) ∈ ev3 := by
      rw [h3] at hwarn
      exact hwarn
    refine ⟨b1 ++ b2, ?_, List.mem_append_right _ hb, ?_⟩
    · rw [hcon]
    · have htr : Event.logWarning (warnMsg e.name) ∈
          ev1 ++ versionEvents env ++ ev3 ++ [Event.callInit 0] := by
        simp only [List.mem_append]
        exact Or.inl (Or.inr hw3)
      rw [hcon]
      exact htr

theorem resolveTable_no_init (lib : String) (L : Loader) :
    ∀ t : List SymEntry, ∀ ev ∈ (resolveTable lib L t).2,
      Event.isInit ev = false := by
  intro t
  induction t with
  | nil => intro ev hev; rw [resolveTable_nil] at hev; cases hev
  | cons e t ih =>
    intro ev hev
    have hone : ∀ ev2 ∈ (resolveSym lib L e).2, Event.isInit ev2 = false := by
      intro ev2 hin
      rcases resolveSym_events lib L e with h | h <;> rw [h] at hin <;>
        simp at hin
      · rw [hin]
        rfl
      · rcases hin with hin | hin <;> rw [hin] <;> rfl
    rcases hsym : resolveSym lib L e with ⟨rs, ev0⟩
    cases rs with
    | error m =>
      rw [resolveTable_cons_err lib L e t m ev0 hsym] at hev
      exact hone ev (by rw [hsym]; exact hev)
    | ok b =>
      rcases ht : resolveTable lib L t with ⟨rt, ev2⟩
      have hsplit : ev ∈ ev0 ++ ev2 := by
        cases rt with
        | error m =>
          rw [resolveTable_cons_ok_err lib L e t b ev0 m ev2 hsym ht] at hev
          exact hev
        | ok bs =>
          rw [resolveTable_cons_ok_ok lib L e t b ev0 bs ev2 hsym ht] at hev
          exact hev
      rcases List.mem_append.mp hsplit with h | h
      · exact hone ev (by rw [hsym]; exact h)
      · exact ih ev (by rw [ht]; exact h)

theorem versionEvents_all_no_init (env : Env) :
    ∀ ev ∈ versionEvents env, Event.isInit ev = false := by
  intro ev hev
  unfold versionEvents at hev
  rcases hq : env.queryVersion with _ | v <;> rw [hq] at hev <;>
    simp at hev <;> rcases hev with h | h <;> rw [h] <;> rfl

theorem filter_isInit_nil (l : List Event)
    (h : ∀ ev ∈ l, Event.isInit ev = false) :
    l.filter Event.isInit = [] := by
  induction l with
  | nil => rfl
  | cons a l ih =>
    rw [List.filter_cons, h a (List.mem_cons_self _ _)]
    exact ih (fun ev hev => h ev (List.mem_cons_of_mem _ hev))

/-- C6: once all symbols resolve, cuInit is invoked exactly once, with
argument 0, its return code is never read (the construction result does not
depend on `initRet`), and construction reaches a usable handle for every
such return value. -/
theorem cuInit_called_once (env : Env)
    (hlib : env.libOpen = true)
    (hreq : ∀ e ∈ allEntries env.win32, e.policy.isRequired = true →
      ∃ p, env.L e.loadName = some p) :
    (∃ hh, (construct env).2 = .ok hh) ∧
    (construct env).1.filter Event.isInit = [.callInit 0] ∧
    (∀ ret : Int, construct { env with initRet := ret } = construct env) := by
  obtain ⟨bs1, hbs1⟩ := resolveTable_ok_of_required (cudaName env.win32) env.L
    phase1Table (fun e2 he2 hr => hreq e2 (List.mem_append_left _ he2) hr)
  obtain ⟨bs2, hbs2⟩ := resolveTable_ok_of_required (cudaName env.win32) env.L
    (mainTable env.win32)
    (fun e2 he2 hr => hreq e2 (List.mem_append_right _ he2) hr)
  have hinit : ∀ ret : Int, construct { env with initRet := ret } =
      construct env := by
    intro ret
    cases env
    rfl
  rcases construct_cases env hlib with
    ⟨m, ev1, h1, hcon⟩ | ⟨b1, ev1, m, ev3, h1, h3, hcon⟩ |
    ⟨b1, ev1, b2, ev3, h1, h3, hcon⟩
  · rw [h1] at hbs1
    simp at hbs1
  · rw [h3] at hbs2
    simp at hbs2
  · refine ⟨⟨b1 ++ b2, by rw [hcon]⟩, ?_, hinit⟩
    have hfil : (ev1 ++ versionEvents env ++ ev3 ++
        [Event.callInit 0]).filter Event.isInit = [Event.callInit 0] := by
      rw [List.filter_append, List.filter_append, List.filter_append]
      rw [filter_isInit_nil ev1
        (fun ev hev => resolveTable_no_init _ _ phase1Table ev
          (by rw [h1]; exact hev))]
      rw [filter_isInit_nil (versionEvents env) (versionEvents_all_no_init env)]
      rw [filter_isInit_nil ev3
        (fun ev hev => resolveTable_no_init _ _ (mainTable env.win32) ev
          (by rw [h3]; exact hev))]
      rfl
    rw [hcon]
    exact hfil

/-- C9: the two critical symbols cuInit and cuDriverGetVersion are resolved,
and the diagnostic version query issued, strictly before any symbol of the
main table is resolved. -/
theorem init_version_resolved_first (env : Env) (p q : Nat)
    (hlib : env.libOpen = true)
    (h1 : env.L "cuInit" = some p)
    (h2 : env.L "cuDriverGetVersion" = some q) :
    ∃ rest, (construct env).1 =
      [Event.resolve "cuInit", Event.resolve "cuDriverGetVersion"] ++
        versionEvents env ++ rest ∧
      Event.callGetVersion ∈ versionEvents env ∧
      (∀ s, Event.resolve s ∉ versionEvents env) ∧
      (∀ s, Event.resolve s ∈ rest →
        s ∈ (mainTable env.win32).map SymEntry.loadName) := by
  have hph : resolveTable (cudaName env.win32) env.L phase1Table =
      (.ok [("cuInit", some p), ("cuDriverGetVersion", some q)],
       [Event.resolve "cuInit", Event.resolve "cuDriverGetVersion"]) := by
    have e1 : resolveSym (cudaName env.win32) env.L ⟨"cuInit", .required⟩ =
        (.ok ("cuInit", some p), [Event.resolve "cuInit"]) :=
      resolveSym_some _ _ _ p h1
    have e2 : resolveSym (cudaName env.win32) env.L
        ⟨"cuDriverGetVersion", .required⟩ =
        (.ok ("cuDriverGetVersion", some q),
         [Event.resolve "cuDriverGetVersion"]) :=
      resolveSym_some _ _ _ q h2
    rw [phase1Table]
    rw [resolveTable_cons_ok_ok _ _ _ _ _ _ _ _ e1
      (resolveTable_cons_ok_ok _ _ _ _ _ _ _ _ e2 (resolveTable_nil _ _))]
    rfl
  rcases construct_cases env hlib with
    ⟨m, ev1, h1c, hcon⟩ | ⟨b1, ev1, m, ev3, h1c, h3, hcon⟩ |
    ⟨b1, ev1, b2, ev3, h1c, h3, hcon⟩
  · rw [hph] at h1c
    cases h1c
  · rw [hph] at h1c
    injection h1c with hb hev
    subst hev
    refine ⟨ev3, ?_, versionEvents_query env,
      fun s => versionEvents_no_resolve env s, ?_⟩
    · rw [hcon]
    · intro s hs
      exact resolveTable_resolve_mem _ _ _ s (by rw [h3]; exact hs)
  · rw [hph] at h1c
    injection h1c with hb hev
    subst hev
    refine ⟨ev3 ++ [Event.callInit 0], ?_, versionEvents_query env,
      fun s => versionEvents_no_resolve env s, ?_⟩
    · rw [hcon]
      exact List.append_assoc _ _ _
    · intro s hs
      rcases List.mem_append.mp hs with h | h
      · exact resolveTable_resolve_mem _ _ _ s (by rw [h3]; exact h)
      · simp at h

/-- C4: the versioned-suffix policies hand the loader exactly the logical
name with "_v2" appended -- never the bare logical name -- while the binding
produced is keyed by the unsuffixed logical name, with the pointer the
loader returned for the suffixed lookup. -/
theorem versioned_suffix_lookup (lib : String) (L : Loader) (s : String)
    (pol : Policy) (hp : pol = .requiredV2 ∨ pol = .optionalV2) :
    (∀ s2, Event.resolve s2 ∈ (resolveSym lib L ⟨s, pol⟩).2 →
      s2 = s ++ "_v2") ∧
    Event.resolve (s ++ "_v2") ∈ (resolveSym lib L ⟨s, pol⟩).2 ∧
    s ++ "_v2" ≠ s ∧
    (∀ b, (resolveSym lib L ⟨s, pol⟩).1 = .ok b →
      b.1 = s ∧ b.2 = L (s ++ "_v2")) := by
  have hload : (⟨s, pol⟩ : SymEntry).loadName = s ++ "_v2" := by
    rcases hp with h | h <;> subst h <;> rfl
  have hne : s ++ "_v2" ≠ s := by
    intro hcontra
    have hlen := congrArg String.length hcontra
    rw [String.length_append] at hlen
    have h3 : ("_v2" : String).length = 3 := rfl
    omega
  refine ⟨?_, ?_, hne, ?_⟩
  · intro s2 hs2
    have hs2e : s2 = (⟨s, pol⟩ : SymEntry).loadName := by
      rcases resolveSym_events lib L ⟨s, pol⟩ with h | h <;> rw [h] at hs2 <;>
        simpa using hs2
    rw [hs2e, hload]
  · rcases resolveSym_events lib L ⟨s, pol⟩ with h | h <;> rw [h, hload] <;>
      simp
  · intro b hb
    rcases hL : L (s ++ "_v2") with _ | p0
    · have hL2 : L (⟨s, pol⟩ : SymEntry).loadName = none := by
        rw [hload]
        exact hL
      rcases hp with h | h
      · subst h
        rw [resolveSym_none_req lib L _ hL2 rfl] at hb
        cases hb
      · subst h
        rw [resolveSym_none_opt lib L _ hL2 rfl] at hb
        simp only at hb
        injection hb with hb
        subst hb
        exact ⟨rfl, rfl⟩
    · have hL2 : L (⟨s, pol⟩ : SymEntry).loadName = some p0 := by
        rw [hload]
        exact hL
      rw [resolveSym_some lib L _ p0 hL2] at hb
      simp only at hb
      injection hb with hb
      subst hb
      exact ⟨rfl, rfl⟩

/-- C7: the version components computed (and logged) during construction
are major = v/1000, minor = (v%1000)/10, patch = v%10 with C truncating
division; in particular 11020 decodes to 11.2.0. -/
theorem version_decode_formula (v : Int) :
    decodeVersion v = (v.tdiv 1000, ((v.tmod 1000).tdiv 10, v.tmod 10)) ∧
    decodeVersion 11020 = (11, (2, 0)) ∧
    (∀ env : Env, env.queryVersion = some v →
      versionEvents env =
        [.callGetVersion, .logInfo (versionInfoMsg (decodeVersion v))]) := by
  refine ⟨rfl, by decide, ?_⟩
  intro env hq
  unfold versionEvents
  rw [hq]

/-- C8: version() performs the driver version query and returns whatever
value the driver wrote, or the initial 0 when the query fails; it is a
total function (it cannot throw or abort). -/
theorem version_total (env : Env) :
    (version env).2 = [.callGetVersion] ∧
    (∀ v, env.queryVersion = some v → (version env).1 = v) ∧
    (env.queryVersion = none → (version env).1 = 0) := by
  refine ⟨rfl, ?_, ?_⟩
  · intro v hv
    unfold version
    rw [hv]
  · intro hv
    unfold version
    rw [hv]

theorem errMsg_length (lib s : String) :
    (errMsg lib s).length = s.length + lib.length + 26 := by
  unfold errMsg
  rw [String.length_append, String.length_append, String.length_append,
    String.length_append]
  have h1 : ("Failed to load '" : String).length = 16 := rfl
  have h2 : ("' from '" : String).length = 8 := rfl
  have h3 : ("'." : String).length = 2 := rfl
  omega

theorem warnMsg_length (s : String) :
    (warnMsg s).length = s.length + 37 := by
  unfold warnMsg
  rw [String.length_append, String.length_append]
  have h1 : ("Loading of optional symbol '" : String).length = 28 := rfl
  have h2 : ("' failed." : String).length = 9 := rfl
  omega

/-- C10: when a versioned-policy symbol fails to resolve, the fatal error
(required case) and the warning (optional case) are built from the
unsuffixed logical name; they differ from the messages that would name the
suffixed symbol actually looked up. -/
theorem versioned_failure_names_logical (lib : String) (L : Loader)
    (s : String) (hnull : L (s ++ "_v2") = none) :
    (resolveSym lib L ⟨s, .requiredV2⟩).1 = .error (errMsg lib s) ∧
    (resolveSym lib L ⟨s, .optionalV2⟩).2 =
      [.resolve (s ++ "_v2"), .logWarning (warnMsg s)] ∧
    errMsg lib s ≠ errMsg lib (s ++ "_v2") ∧
    warnMsg s ≠ warnMsg (s ++ "_v2") := by
  have hsuf : (s ++ "_v2").length = s.length + 3 := by
    rw [String.length_append]
    rfl
  refine ⟨?_, ?_, ?_, ?_⟩
  · rw [resolveSym_none_req lib L ⟨s, .requiredV2⟩ hnull rfl]
  · rw [resolveSym_none_opt lib L ⟨s, .optionalV2⟩ hnull rfl]
    rfl
  · intro hcontra
    have hlen := congrArg String.length hcontra
    rw [errMsg_length, errMsg_length, hsuf] at hlen
    omega
  · intro hcontra
    have hlen := congrArg String.length hcontra
    rw [warnMsg_length, warnMsg_length, hsuf] at hlen
    omega

/-- Witness for C2 at the concrete entry cuMemAlloc (required, versioned). -/
theorem required_symbol_policy_witness :
    (construct envNoMemAlloc).2 =
      .error (errMsg (cudaName false) "cuMemAlloc") :=
  (required_symbol_policy envNoMemAlloc).1 ⟨"cuMemAlloc", .requiredV2⟩
    (by decide) rfl (by decide) (by decide)

/-- Witness for C3 at the concrete optional entry cuCtxGetCurrent. -/
theorem optional_symbol_policy_witness :
    ∃ hh, (construct envNoCtxGetCurrent).2 = .ok hh ∧
      ("cuCtxGetCurrent", (none : Option Nat)) ∈ hh ∧
      Event.logWarning (warnMsg "cuCtxGetCurrent") ∈
        (construct envNoCtxGetCurrent).1 := by
  have hreq : ∀ e2 ∈ allEntries false, e2.policy.isRequired = true →
      noCtxGetCurrentLoader e2.loadName = some 1 := by decide
  exact optional_symbol_policy envNoCtxGetCurrent
    ⟨"cuCtxGetCurrent", .optionalSym⟩ (by decide) rfl (by decide)
    (fun e2 hm hr => ⟨1, hreq e2 hm hr⟩) rfl

/-- Witness for C6 with a fully functional loader. -/
theorem cuInit_called_once_witness :
    (∃ hh, (construct envOk).2 = .ok hh) ∧
    (construct envOk).1.filter Event.isInit = [.callInit 0] ∧
    (∀ ret : Int, construct { envOk with initRet := ret } = construct envOk) :=
  cuInit_called_once envOk rfl (fun _ _ _ => ⟨1, rfl⟩)

/-- Witness for C9 with a fully functional loader. -/
theorem init_version_resolved_first_witness :
    ∃ rest, (construct envOk).1 =
      [Event.resolve "cuInit", Event.resolve "cuDriverGetVersion"] ++
        versionEvents envOk ++ rest ∧
      Event.callGetVersion ∈ versionEvents envOk ∧
      (∀ s, Event.resolve s ∉ versionEvents envOk) ∧
      (∀ s, Event.resolve s ∈ rest →
        s ∈ (mainTable envOk.win32).map SymEntry.loadName) :=
  init_version_resolved_first envOk 1 1 rfl rfl rfl

/-- Witness for C4 at the concrete symbol cuCtxCreate. -/
theorem versioned_suffix_lookup_witness :
    (∀ s2, Event.resolve s2 ∈ (resolveSym "libcuda.so.1" okLoader
        ⟨"cuCtxCreate", .requiredV2⟩).2 → s2 = "cuCtxCreate" ++ "_v2") ∧
    Event.resolve ("cuCtxCreate" ++ "_v2") ∈
      (resolveSym "libcuda.so.1" okLoader ⟨"cuCtxCreate", .requiredV2⟩).2 ∧
    "cuCtxCreate" ++ "_v2" ≠ "cuCtxCreate" ∧
    (∀ b, (resolveSym "libcuda.so.1" okLoader
        ⟨"cuCtxCreate", .requiredV2⟩).1 = .ok b →
      b.1 = "cuCtxCreate" ∧ b.2 = okLoader ("cuCtxCreate" ++ "_v2")) :=
  versioned_suffix_lookup "libcuda.so.1" okLoader "cuCtxCreate" .requiredV2
    (Or.inl rfl)

/-- Witness for C7 at the spec's example value 11020. -/
theorem version_decode_formula_witness :
    decodeVersion 11020 = (11, (2, 0)) ∧
    versionEvents envOk =
      [.callGetVersion, .logInfo (versionInfoMsg (decodeVersion 11020))] :=
  ⟨(version_decode_formula 11020).2.1,
   (version_decode_formula 11020).2.2 envOk rfl⟩

/-- Witness for C8: a successful and a failing version query. -/
theorem version_total_witness :
    (version envOk).2 = [.callGetVersion] ∧ (version envOk).1 = 11020 ∧
    (version ⟨true, okLoader, none, 0, false⟩).1 = 0 :=
  ⟨(version_total envOk).1, (version_total envOk).2.1 11020 rfl,
   (version_total ⟨true, okLoader, none, 0, false⟩).2.2 rfl⟩

/-- Witness for C10 at the concrete symbol cuCtxCreate. -/
theorem versioned_failure_names_logical_witness :
    (resolveSym "libcuda.so.1" (fun _ => none)
        ⟨"cuCtxCreate", .requiredV2⟩).1 =
      .error (errMsg "libcuda.so.1" "cuCtxCreate") ∧
    (resolveSym "libcuda.so.1" (fun _ => none)
        ⟨"cuCtxCreate", .optionalV2⟩).2 =
      [.resolve ("cuCtxCreate" ++ "_v2"),
       .logWarning (warnMsg "cuCtxCreate")] ∧
    errMsg "libcuda.so.1" "cuCtxCreate" ≠
      errMsg "libcuda.so.1" ("cuCtxCreate" ++ "_v2") ∧
    warnMsg "cuCtxCreate" ≠ warnMsg ("cuCtxCreate" ++ "_v2") :=
  versioned_failure_names_logical "libcuda.so.1" (fun _ => none)
    "cuCtxCreate" rfl

end streamfx.nvidia.cuda

section scratch
open streamfx.nvidia.cuda
example : decodeVersion 11020 = (11, (2, 0)) := by decide
example : (⟨"cuCtxCreate", .requiredV2⟩ : SymEntry).loadName = "cuCtxCreate_v2" := rfl
example : (allEntries false).length = 51 := by decide
example : (allEntries true).length = 55 := by decide
example : ((allEntries true).map SymEntry.loadName).Nodup := by decide
end scratch
